import Mathlib

/-!
# Verification of the vgrid interval-set core and its rendering consumers

This file gives a shallow embedding of the interval-set data model of the
vgrid video-annotation grid and of the rendering/selection components that
consume it (`VBlock`, `Timeline`, `TimelineRow`, `Groups`), and proves the
specified properties about them.

Times are modelled as rationals (`ℚ`).  The core `interval` module
(`Bounds`, `Interval`, `IntervalSet`) is not part of the visible sources —
only its consumers are — so those definitions are modelled from the spec
and are marked as such in their doc comments.  Everything else is
translated directly from the component sources.
-/

namespace Vgrid

/-- Errors of the core, per the spec's error taxonomy (§7). -/
inductive VError where
  | invalidRange
  | decodeError
deriving Repr, DecidableEq

/-- A JavaScript number as it can appear in a decoded payload: finite
(rational) or one of the non-finite values. -/
inductive VNum where
  | nan
  | posInf
  | negInf
  | fin (q : ℚ)
deriving Repr, DecidableEq

/-- A time range `[t1, t2]`.  Modelled from the spec: `Bounds` is the
extent of an interval and also a query window; `Bounds(t1, t2=t1)` denotes
a point query. -/
structure Bounds where
  t1 : ℚ
  t2 : ℚ
deriving Repr, DecidableEq

namespace Bounds

/-- `span()` returns `t2 - t1`. -/
def span (b : Bounds) : ℚ := b.t2 - b.t1

/-- A point query `Bounds(p)`: the one-argument constructor defaults
`t2` to `t1`. -/
def point (p : ℚ) : Bounds := ⟨p, p⟩

/-- Modelled from the spec: the validity check of the `Bounds`
constructor — both endpoints finite, non-negative and `t1 <= t2`. -/
def valid : VNum → VNum → Bool
  | VNum.fin q1, VNum.fin q2 => 0 ≤ q1 && 0 ≤ q2 && q1 ≤ q2
  | _, _ => false

/-- Modelled from the spec: the checked `Bounds` constructor.
`Bounds(t1, t2=t1)` fails with `InvalidRange` if `t1 > t2` or either
endpoint is negative or non-finite; the values are never clamped. -/
def mk? (n1 n2 : VNum) : Except VError Bounds :=
  match n1, n2 with
  | VNum.fin q1, VNum.fin q2 =>
    if 0 ≤ q1 ∧ 0 ≤ q2 ∧ q1 ≤ q2 then Except.ok ⟨q1, q2⟩
    else Except.error VError.invalidRange
  | _, _ => Except.error VError.invalidRange

end Bounds

/-- The spatial-type tag of a payload: a closed tagged variant with an
opaque arm for forward compatibility (spec §3, design notes). -/
inductive SpatialType where
  | bbox (color : Option String)
  | caption
  | unknown (tag : String)
deriving Repr, DecidableEq

/-- An opaque payload: a spatial-type tag plus a free-form metadata map.
The core stores and returns it without interpreting it. -/
structure VData where
  spatial_type : SpatialType
  metadata : List (String × String)
deriving Repr, DecidableEq

/-- One `(Bounds, Data)` record.  Identity is object identity in the
source; following the spec's design notes it is modelled as an explicit
`id` carried alongside the bounds and payload. -/
structure Interval where
  id : ℕ
  bounds : Bounds
  data : VData
deriving Repr, DecidableEq

/-- Modelled from the spec: an `IntervalSet` is an ordered sequence of
intervals, sorted ascending by `t1` (ties broken stably: a new interval
is inserted after existing intervals with the same start). -/
structure IntervalSet where
  intervals : List Interval
deriving Repr, DecidableEq

/-- The sort invariant of an interval set: ascending start times. -/
def sortedByT1 (l : List Interval) : Prop :=
  l.Pairwise (fun a b => a.bounds.t1 ≤ b.bounds.t1)

instance : DecidablePred sortedByT1 := fun l =>
  inferInstanceAs (Decidable (l.Pairwise _))

namespace IntervalSet

/-- The empty set. -/
def empty : IntervalSet := ⟨[]⟩

/-- Modelled from the spec: stable sorted insertion — the new interval
goes after every element whose `t1` is not greater than its own. -/
def insertSorted (i : Interval) : List Interval → List Interval
  | [] => [i]
  | j :: rest =>
    if j.bounds.t1 ≤ i.bounds.t1 then j :: insertSorted i rest
    else i :: j :: rest

/-- Modelled from the spec: `add(interval)` inserts preserving sort
order; never fails; duplicate bounds are permitted. -/
def add (s : IntervalSet) (i : Interval) : IntervalSet :=
  ⟨insertSorted i s.intervals⟩

/-- Modelled from the spec: remove the first element matching by
identity; no-op if absent. -/
def removeFirst (i : Interval) : List Interval → List Interval
  | [] => []
  | j :: rest => if j.id = i.id then rest else j :: removeFirst i rest

/-- Modelled from the spec: `remove(interval)` removes the first element
matching by identity; a defined no-op (not an error) if absent. -/
def remove (s : IntervalSet) (i : Interval) : IntervalSet :=
  ⟨removeFirst i s.intervals⟩

/-- `length()` — the element count. -/
def length (s : IntervalSet) : ℕ := s.intervals.length

/-- `to_list()` — the ordered sequence of intervals (a snapshot). -/
def to_list (s : IntervalSet) : List Interval := s.intervals

/-- `arbitrary_interval()` — the first interval in sort order, or `none`
if the set is empty (spec §4.3). -/
def arbitrary_interval (s : IntervalSet) : Option Interval :=
  s.intervals.head?

/-- Modelled from the spec: the point-containment predicate of §4.1 —
closed-interval semantics, `t1 <= p <= t2` for a point query (for a
window it is closed overlap of the two ranges). -/
def overlapsBounds (i : Interval) (b : Bounds) : Bool :=
  i.bounds.t1 ≤ b.t2 && b.t1 ≤ i.bounds.t2

/-- Modelled from the spec: `time_overlaps(bounds)` returns a new set of
every interval satisfying the point-containment predicate of §4.1. -/
def time_overlaps (s : IntervalSet) (b : Bounds) : IntervalSet :=
  ⟨s.intervals.filter (fun i => overlapsBounds i b)⟩

/-- Modelled from the spec: merge of two sorted sequences (no
de-duplication). -/
def mergeSorted : List Interval → List Interval → List Interval
  | [], ys => ys
  | x :: xs, [] => x :: xs
  | x :: xs, y :: ys =>
    if x.bounds.t1 ≤ y.bounds.t1 then x :: mergeSorted xs (y :: ys)
    else y :: mergeSorted (x :: xs) ys

/-- Modelled from the spec: `union(other)` merges two sets into one
sorted set holding all members of both — multiset union, no
de-duplication. -/
def union (s other : IntervalSet) : IntervalSet :=
  ⟨mergeSorted s.intervals other.intervals⟩

end IntervalSet

/-- A `(name, IntervalSet)` pairing; a block holds one per annotation
channel. -/
structure NamedIntervalSet where
  name : String
  interval_set : IntervalSet
deriving Repr, DecidableEq

/-! ## The in-progress interval advance (`Timeline.componentDidUpdate`)

From the source: when an in-progress interval exists, on each update

    if (time > new_positive_interval.bounds.t1 && time != new_positive_interval.bounds.t2) {
      new_positive_interval.bounds.t2 = time;
      ...
    }
-/

/-- The bounds update performed by `Timeline.componentDidUpdate` on an
in-progress interval: if the current time is strictly after `t1` and
differs from `t2`, set `t2` to the current time; otherwise leave the
bounds unchanged. -/
def advance_t2 (b : Bounds) (time : ℚ) : Bounds :=
  if time > b.t1 ∧ time ≠ b.t2 then { b with t2 := time } else b

/-! ## The timeline-row draw decision (`TimelineRow.render_canvas`)

From the source: for each interval of the row's set,

    if (bounds.t2 > this.props.bounds.start && bounds.t1 < this.props.bounds.end) {
      let x1 = Math.max((bounds.t1 - start) / span * full_width, 0);
      let width = Math.max(((bounds.t2 - start) / span * full_width) - x1, 1);
      ctx.fillRect(x1, 0, width, row_height);
    }
-/

/-- The visible window of the timeline (source `TimelineBounds`; the
field the source calls `end` is `stop` here, `end` being a Lean
keyword). -/
structure TimelineBounds where
  start : ℚ
  stop : ℚ
deriving Repr, DecidableEq

/-- `TimelineBounds.span()`. -/
def TimelineBounds.span (b : TimelineBounds) : ℚ := b.stop - b.start

/-- A rectangle passed to `ctx.fillRect` (constant `y = 0` omitted). -/
structure FillRect where
  x : ℚ
  w : ℚ
  h : ℚ
deriving Repr, DecidableEq

/-- `TimelineRow.render_canvas`: the sequence of fill rectangles drawn
for a row, each paired with the interval it renders.  An interval
produces a rectangle exactly when its bounds pass the window test
`t2 > window.start && t1 < window.end`. -/
def render_canvas (intervals : List Interval) (window : TimelineBounds)
    (full_width row_height : ℚ) : List (Interval × FillRect) :=
  intervals.filterMap (fun intvl =>
    let b := intvl.bounds
    if b.t2 > window.start ∧ b.t1 < window.stop then
      let x1 := max ((b.t1 - window.start) / window.span * full_width) 0
      let w := max ((b.t2 - window.start) / window.span * full_width - x1) 1
      some (intvl, ⟨x1, w, row_height⟩)
    else none)

/-- The set of intervals a row actually draws. -/
def drawnIntervals (intervals : List Interval) (window : TimelineBounds)
    (full_width row_height : ℚ) : List Interval :=
  (render_canvas intervals window full_width row_height).map Prod.fst

/-! ## JSON wire format (spec §6) -/

/-- A JSON-like value as handed to the decoders (JS objects may carry
non-finite numbers, so numbers are `VNum`). -/
inductive Json where
  | num (n : VNum)
  | str (s : String)
  | bool (b : Bool)
  | null
  | arr (elems : List Json)
  | obj (fields : List (String × Json))

/-- First-match field lookup in a JSON object literal. -/
def lookupField : List (String × Json) → String → Option Json
  | [], _ => none
  | (k', v) :: rest, k => if k' = k then some v else lookupField rest k

/-- Property access `j[k]` on a JSON value. -/
def Json.getField : Json → String → Option Json
  | Json.obj fields, k => lookupField fields k
  | _, _ => none

/-- View a JSON value as a number. -/
def Json.asNum : Json → Option VNum
  | Json.num n => some n
  | _ => none

/-- Modelled from the spec: decoding of a `{"t1": .., "t2": ..}` bounds
object — missing or non-numeric fields are a `DecodeError`, and the
values go through the checked `Bounds` constructor, so an invalid range
fails with `InvalidRange`. -/
def decodeBounds (j : Json) : Except VError Bounds :=
  match (j.getField "t1").bind Json.asNum, (j.getField "t2").bind Json.asNum with
  | some n1, some n2 => Bounds.mk? n1 n2
  | _, _ => Except.error VError.decodeError

/-- Modelled from the spec: the spatial-type tag decoder — recognized
tags are `bbox` (with an optional color argument) and `caption`;
unrecognized tags decode to the opaque variant rather than failing. -/
def decodeSpatialType (j : Json) : SpatialType :=
  match j.getField "type" with
  | some (Json.str "bbox") =>
    match (j.getField "args").bind (fun a => a.getField "color") with
    | some (Json.str c) => SpatialType.bbox (some c)
    | _ => SpatialType.bbox none
  | some (Json.str "caption") => SpatialType.caption
  | some (Json.str t) => SpatialType.unknown t
  | _ => SpatialType.unknown ""

/-- Modelled from the spec: `vdata_from_json` — a payload needs a
`spatial_type` field; unknown metadata keys are tolerated (string-valued
entries are kept, the rest ignored). -/
def vdata_from_json (j : Json) : Except VError VData :=
  match j.getField "spatial_type" with
  | none => Except.error VError.decodeError
  | some stj =>
    let md :=
      match j.getField "metadata" with
      | some (Json.obj fields) =>
        fields.filterMap (fun kv =>
          match kv.2 with
          | Json.str s => some (kv.1, s)
          | _ => none)
      | _ => []
    Except.ok ⟨decodeSpatialType stj, md⟩

/-- Modelled from the spec: decoding one interval record.  The bounds
are decoded (and validated) before the payload, so
`{"bounds":{"t1":3,"t2":1}}` fails with `InvalidRange`, not with a
complaint about the missing payload. -/
def decodeInterval (decoder : Json → Except VError VData) (id : ℕ)
    (j : Json) : Except VError Interval := do
  let bj ← match j.getField "bounds" with
    | some bj => Except.ok bj
    | none => Except.error VError.decodeError
  let b ← decodeBounds bj
  let dj ← match j.getField "data" with
    | some dj => Except.ok dj
    | none => Except.error VError.decodeError
  let d ← decoder dj
  Except.ok ⟨id, b, d⟩

/-- Decode a list of interval records, assigning identities by
position — all-or-nothing. -/
def intervalsFromJson (decoder : Json → Except VError VData) :
    ℕ → List Json → Except VError (List Interval)
  | _, [] => Except.ok []
  | id, j :: rest => do
    let i ← decodeInterval decoder id j
    let is ← intervalsFromJson decoder (id + 1) rest
    Except.ok (i :: is)

/-- Modelled from the spec: `IntervalSet.from_json(raw, payload_decoder)`
— decodes an array of interval records and builds the set through `add`,
so the sort invariant holds on the loaded set; fails with `DecodeError`
on a structurally invalid input. -/
def IntervalSet.from_json (raw : Json)
    (decoder : Json → Except VError VData) : Except VError IntervalSet :=
  match raw with
  | Json.arr elems => do
    let is ← intervalsFromJson decoder 0 elems
    Except.ok (is.foldl IntervalSet.add IntervalSet.empty)
  | _ => Except.error VError.decodeError

/-- A per-video block: `{video_id, interval_sets}` (source
`IntervalBlock`). -/
structure IntervalBlock where
  interval_sets : List NamedIntervalSet
  video_id : ℚ
deriving DecidableEq

/-- One entry of `interval_sets`: the source maps
`({interval_set, name}) => ({name: name, interval_set: IntervalSet.from_json(interval_set, vdata_from_json)})`,
copying the name verbatim. -/
def decodeNamedSet (j : Json) : Except VError NamedIntervalSet :=
  match j.getField "name", j.getField "interval_set" with
  | some (Json.str name), some isJ =>
    match IntervalSet.from_json isJ vdata_from_json with
    | Except.ok is => Except.ok ⟨name, is⟩
    | Except.error e => Except.error e
  | _, _ => Except.error VError.decodeError

/-- Decode every named interval set of a block, in order. -/
def decodeNamedSets : List Json → Except VError (List NamedIntervalSet)
  | [] => Except.ok []
  | j :: rest =>
    match decodeNamedSet j with
    | Except.error e => Except.error e
    | Except.ok s =>
      match decodeNamedSets rest with
      | Except.error e => Except.error e
      | Except.ok ss => Except.ok (s :: ss)

/-- One block: the source reads `video_id` and maps over
`interval_sets`. -/
def decodeBlock (j : Json) : Except VError IntervalBlock :=
  match j.getField "video_id", j.getField "interval_sets" with
  | some (Json.num (VNum.fin vid)), some (Json.arr sets) =>
    match decodeNamedSets sets with
    | Except.ok ss => Except.ok ⟨ss, vid⟩
    | Except.error e => Except.error e
  | _, _ => Except.error VError.decodeError

/-- Decode every block of the payload, in order. -/
def decodeBlocks : List Json → Except VError (List IntervalBlock)
  | [] => Except.ok []
  | j :: rest =>
    match decodeBlock j with
    | Except.error e => Except.error e
    | Except.ok b =>
      match decodeBlocks rest with
      | Except.error e => Except.error e
      | Except.ok bs => Except.ok (b :: bs)

/-- `interval_blocks_from_json` (source): `obj.map(...)` over the
top-level array. -/
def interval_blocks_from_json (j : Json) : Except VError (List IntervalBlock) :=
  match j with
  | Json.arr blocks => decodeBlocks blocks
  | _ => Except.error VError.decodeError

/-- The channel-name strings of one `interval_sets` entry of the raw
JSON, used to state name preservation. -/
def channelNameOfSetJson (j : Json) : Option String :=
  match j.getField "name" with
  | some (Json.str s) => some s
  | _ => none

/-- The channel-name strings of one raw block. -/
def channelNamesOfBlockJson (j : Json) : Option (List String) :=
  match j.getField "interval_sets" with
  | some (Json.arr sets) => sets.mapM channelNameOfSetJson
  | _ => none

/-- The channel-name strings of the whole raw payload. -/
def channelNamesOfJson (j : Json) : Option (List (List String)) :=
  match j with
  | Json.arr blocks => blocks.mapM channelNamesOfBlockJson
  | _ => none

/-! ## `VBlock` (source `part_000`) -/

/-- `show_in_timeline` (source): hide interval sets whose key begins
with `'_'` from the timeline — `(k) => k[0] != '_'`; for an empty key
`k[0]` is `undefined`, which differs from `'_'`. -/
def show_in_timeline (k : String) : Bool :=
  match k.data with
  | [] => true
  | c :: _ => c != '_'

/-- The named interval sets `VBlock.render` passes to the timeline
track: `block.interval_sets.filter(({name}) => show_in_timeline(name))`. -/
def timelineTrackSets (b : IntervalBlock) : List NamedIntervalSet :=
  b.interval_sets.filter (fun s => show_in_timeline s.name)

/-- JS `Math.min` folded against an `Infinity` accumulator: `none`
models `Infinity`. -/
def jsMin (n : Option ℚ) (t : ℚ) : Option ℚ :=
  match n with
  | none => some t
  | some m => some (min m t)

/-- The `first_time` reduction of the `VBlock` constructor.  The outer
`Option` is the crash monad: the body reads
`interval_set.arbitrary_interval()!.bounds.t1` under a
`length() > 0` guard, and a `null` dereference there would be a runtime
fault. -/
def foldFirstTime : List NamedIntervalSet → Option ℚ → Option (Option ℚ)
  | [], n => some n
  | s :: rest, n =>
    if s.interval_set.length > 0 then
      match s.interval_set.arbitrary_interval with
      | some i => foldFirstTime rest (jsMin n i.bounds.t1)
      | none => none
    else foldFirstTime rest n

/-- The `instanceof SpatialType_Caption` test of the captions scan. -/
def isCaption : SpatialType → Bool
  | SpatialType.caption => true
  | _ => false

/-- The captions scan of the `VBlock` constructor: the last interval set
whose representative payload is a caption, found under the same
`length() > 0` guard (outer `Option` again the crash monad). -/
def findCaptions : List NamedIntervalSet → Option IntervalSet →
    Option (Option IntervalSet)
  | [], acc => some acc
  | s :: rest, acc =>
    if s.interval_set.length > 0 then
      match s.interval_set.arbitrary_interval with
      | some i =>
        findCaptions rest
          (if isCaption i.data.spatial_type then some s.interval_set else acc)
      | none => none
    else findCaptions rest acc

/-- The filter inside the `show_timeline` computation: each element
evaluation reads `example_interval.bounds`, so if the example is `null`
and the list is non-empty the filter faults (outer `Option` the crash
monad). -/
def showTimelineFilter (exI : Option Interval) :
    List Interval → Option (List Interval)
  | [] => some []
  | intvl :: rest =>
    match exI with
    | none => none
    | some ex =>
      match showTimelineFilter exI rest with
      | none => none
      | some kept =>
        if intvl.bounds.t1 ≠ ex.bounds.t1 ∧ intvl.bounds.t2 ≠ ex.bounds.t2
        then some (intvl :: kept) else some kept

/-- The fields the `VBlock` constructor computes (`none` models
`Infinity` for `first_time`). -/
structure VBlockInit where
  first_time : Option ℚ
  captions : Option IntervalSet
  show_timeline : Bool
deriving DecidableEq

/-- The `VBlock` constructor, step by step in source order: the
`first_time` reduction over the timeline-visible sets, the captions
scan, the read of `interval_sets[0].interval_set` (a fault on an empty
list), and the `show_timeline` flag
`!(interval_sets.length == 1 && interval_sets[0].interval_set.to_list().filter(...).length == 0)`
whose second conjunct — the only place the unchecked
`arbitrary_interval()!` example is dereferenced — is evaluated only when
the length test holds (`&&` short-circuits). -/
def vblock_constructor (interval_sets : List NamedIntervalSet) :
    Option VBlockInit :=
  match foldFirstTime
      (interval_sets.filter (fun s => show_in_timeline s.name)) none with
  | none => none
  | some first_time =>
    match findCaptions interval_sets none with
    | none => none
    | some captions =>
      match interval_sets with
      | [] => none
      | s0 :: _ =>
        let exI := s0.interval_set.arbitrary_interval
        if interval_sets.length = 1 then
          match showTimelineFilter exI s0.interval_set.to_list with
          | none => none
          | some kept =>
            some ⟨first_time, captions, !(kept.length == 0)⟩
        else some ⟨first_time, captions, true⟩

/-! ## `Groups` selection state (source `Groups.jsx`) -/

/-- The two index sets of the `Groups` component's state. -/
structure GroupsState where
  selected : Finset ℕ
  ignored : Finset ℕ
deriving DecidableEq

/-- The initial `Groups` state: both sets empty. -/
def groupsInit : GroupsState := ⟨∅, ∅⟩

/-- `Groups._onSelect` in individual mode: toggle membership in
`selected`; on add, also delete the index from `ignored`. -/
def onSelectIndividual (st : GroupsState) (e : ℕ) : GroupsState :=
  if e ∈ st.selected then ⟨st.selected.erase e, st.ignored⟩
  else ⟨insert e st.selected, st.ignored.erase e⟩

/-- `Groups._onIgnore`: toggle membership in `ignored`; on add, also
delete the index from `selected`. -/
def onIgnore (st : GroupsState) (e : ℕ) : GroupsState :=
  if e ∈ st.ignored then ⟨st.selected, st.ignored.erase e⟩
  else ⟨st.selected.erase e, insert e st.ignored⟩

/-- The page's index range `minGroup .. maxGroup` (inclusive), with
`minGroup = page * resultsPerPage` and
`maxGroup = min(minGroup + resultsPerPage, numGroups) - 1`. -/
def pageIndices (page resultsPerPage numGroups : ℕ) : List ℕ :=
  let minGroup := page * resultsPerPage
  List.range' minGroup (min (minGroup + resultsPerPage) numGroups - minGroup)

/-- `Groups._onSelectPage`: if every page index is already selected,
deselect the page (deleting from both sets); otherwise select every page
index, deleting each from `ignored`. -/
def onSelectPage (st : GroupsState) (page rpp len : ℕ) : GroupsState :=
  let idxs := pageIndices page rpp len
  let allSelected := idxs.all (fun i => decide (i ∈ st.selected))
  idxs.foldl (fun s i =>
    if allSelected then ⟨s.selected.erase i, s.ignored.erase i⟩
    else ⟨insert i s.selected, s.ignored.erase i⟩) st

/-- `Groups._onIgnorePage`: if every page index is already ignored,
un-ignore the page (deleting from both sets); otherwise ignore every
page index, deleting each from `selected`. -/
def onIgnorePage (st : GroupsState) (page rpp len : ℕ) : GroupsState :=
  let idxs := pageIndices page rpp len
  let allIgnored := idxs.all (fun i => decide (i ∈ st.ignored))
  idxs.foldl (fun s i =>
    if allIgnored then ⟨s.selected.erase i, s.ignored.erase i⟩
    else ⟨s.selected.erase i, insert i s.ignored⟩) st

/-- One selection/ignore operation of the `Groups` component. -/
inductive GroupsOp where
  | select (e : ℕ)
  | ignore (e : ℕ)
  | selectPage (page rpp len : ℕ)
  | ignorePage (page rpp len : ℕ)

/-- Apply one `Groups` operation. -/
def applyGroupsOp (st : GroupsState) : GroupsOp → GroupsState
  | GroupsOp.select e => onSelectIndividual st e
  | GroupsOp.ignore e => onIgnore st e
  | GroupsOp.selectPage page rpp len => onSelectPage st page rpp len
  | GroupsOp.ignorePage page rpp len => onIgnorePage st page rpp len

/-- Apply a sequence of `Groups` operations, left to right. -/
def applyGroupsOps (st : GroupsState) (ops : List GroupsOp) : GroupsState :=
  ops.foldl applyGroupsOp st

/-- A single mutation of an interval set: the two public mutators. -/
inductive SetOp where
  | add (i : Interval)
  | remove (i : Interval)
deriving Repr, DecidableEq

/-- Apply one mutation. -/
def IntervalSet.applyOp (s : IntervalSet) : SetOp → IntervalSet
  | SetOp.add i => s.add i
  | SetOp.remove i => s.remove i

/-- Apply a sequence of mutations, left to right. -/
def IntervalSet.applyOps (s : IntervalSet) (ops : List SetOp) : IntervalSet :=
  ops.foldl IntervalSet.applyOp s

/-- The concrete caption interval `[2, 5] : "cap"` of the spec's
worked example. -/
def capInterval : Interval :=
  ⟨0, ⟨2, 5⟩, ⟨SpatialType.caption, [("caption", "cap")]⟩⟩

/-- The singleton example set `S = {[2,5] : "cap"}`. -/
def capSet : IntervalSet := ⟨[capInterval]⟩

/-! ## Theorems -/

/-- Membership in a stable sorted insertion. -/
theorem mem_insertSorted (i x : Interval) (l : List Interval) :
    x ∈ IntervalSet.insertSorted i l ↔ x = i ∨ x ∈ l := by
  induction l with
  | nil => simp [IntervalSet.insertSorted]
  | cons j rest ih =>
    by_cases hj : j.bounds.t1 ≤ i.bounds.t1
    · simp only [IntervalSet.insertSorted, if_pos hj, List.mem_cons, ih]
      tauto
    · simp only [IntervalSet.insertSorted, if_neg hj, List.mem_cons]

/-- Stable sorted insertion preserves the sort invariant. -/
theorem sortedByT1_insertSorted (i : Interval) (l : List Interval)
    (h : sortedByT1 l) : sortedByT1 (IntervalSet.insertSorted i l) := by
  induction l with
  | nil => simp [IntervalSet.insertSorted, sortedByT1]
  | cons j rest ih =>
    rcases List.pairwise_cons.mp h with ⟨hj, hrest⟩
    by_cases hc : j.bounds.t1 ≤ i.bounds.t1
    · rw [IntervalSet.insertSorted, if_pos hc]
      refine List.pairwise_cons.mpr ⟨?_, ih hrest⟩
      intro b hb
      rcases (mem_insertSorted i b rest).mp hb with rfl | hb
      · exact hc
      · exact hj b hb
    · rw [IntervalSet.insertSorted, if_neg hc]
      refine List.pairwise_cons.mpr ⟨?_, h⟩
      intro b hb
      rcases List.mem_cons.mp hb with rfl | hb
      · exact le_of_lt (lt_of_not_le hc)
      · exact le_trans (le_of_lt (lt_of_not_le hc)) (hj b hb)

/-- Identity-based removal yields a sublist of the original sequence. -/
theorem removeFirst_sublist (i : Interval) (l : List Interval) :
    (IntervalSet.removeFirst i l).Sublist l := by
  induction l with
  | nil => simp [IntervalSet.removeFirst]
  | cons j rest ih =>
    by_cases hc : j.id = i.id
    · rw [IntervalSet.removeFirst, if_pos hc]
      exact List.sublist_cons_self j rest
    · rw [IntervalSet.removeFirst, if_neg hc]
      exact ih.cons₂ j

/-- C3: for every sequence of `add`/`remove` operations applied to a set
satisfying the sort invariant, the resulting element sequence is sorted
ascending by `t1` after every operation (every prefix of the sequence is
itself such a sequence); ties are broken stably because `add` inserts a
new interval after all existing intervals whose `t1` is not greater. -/
theorem applyOps_sorted (S : IntervalSet) (ops : List SetOp)
    (h : sortedByT1 S.intervals) :
    sortedByT1 ((S.applyOps ops).intervals) := by
  induction ops generalizing S with
  | nil => exact h
  | cons op ops ih =>
    have hstep : sortedByT1 ((S.applyOp op).intervals) := by
      cases op with
      | add i => exact sortedByT1_insertSorted i S.intervals h
      | remove i =>
        exact List.Pairwise.sublist (removeFirst_sublist i S.intervals) h
    exact ih (S.applyOp op) hstep

/-- Witness for C3: a concrete add/add/add/remove run from the empty
set, with the middle interval sharing a start time, stays sorted. -/
theorem applyOps_sorted_witness :
    sortedByT1 ((IntervalSet.empty.applyOps
      [SetOp.add ⟨1, ⟨3, 4⟩, ⟨SpatialType.unknown "", []⟩⟩,
       SetOp.add ⟨2, ⟨1, 9⟩, ⟨SpatialType.unknown "", []⟩⟩,
       SetOp.add ⟨3, ⟨3, 7⟩, ⟨SpatialType.unknown "", []⟩⟩,
       SetOp.remove ⟨2, ⟨1, 9⟩, ⟨SpatialType.unknown "", []⟩⟩]).intervals) :=
  applyOps_sorted IntervalSet.empty _ (by simp [IntervalSet.empty, sortedByT1])

/-- C2: point-overlap queries are boundary-inclusive at both ends — an
interval `I` belonging to a set `S` is in `S.time_overlaps(Bounds(p))`
exactly when `I.t1 <= p <= I.t2`. -/
theorem time_overlaps_point_iff (S : IntervalSet) (I : Interval) (p : ℚ)
    (h : I ∈ S.intervals) :
    I ∈ (S.time_overlaps (Bounds.point p)).intervals ↔
      (I.bounds.t1 ≤ p ∧ p ≤ I.bounds.t2) := by
  simp [IntervalSet.time_overlaps, IntervalSet.overlapsBounds, Bounds.point,
    List.mem_filter, h]

/-- Witness for C2 on the spec's worked example `S = {[2,5] : "cap"}`:
the query at `p = 5` contains the interval (boundary inclusive), and the
query at `p = 5.0001` is empty. -/
theorem time_overlaps_point_iff_witness :
    (capInterval ∈ (capSet.time_overlaps (Bounds.point 5)).intervals ↔
      (capInterval.bounds.t1 ≤ 5 ∧ (5 : ℚ) ≤ capInterval.bounds.t2)) ∧
      (capSet.time_overlaps (Bounds.point (50001 / 10000))).intervals = [] :=
  ⟨time_overlaps_point_iff capSet capInterval 5 (by simp [capSet]),
   by
    have hb : IntervalSet.overlapsBounds capInterval
        (Bounds.point (50001 / 10000)) = false := by
      norm_num [IntervalSet.overlapsBounds, capInterval, Bounds.point]
    simp [capSet, IntervalSet.time_overlaps, List.filter_cons, hb]⟩

/-- The merge of two sorted sequences is a permutation of their
concatenation. -/
theorem mergeSorted_perm : ∀ xs ys : List Interval,
    (IntervalSet.mergeSorted xs ys).Perm (xs ++ ys)
  | [], ys => by simp [IntervalSet.mergeSorted]
  | x :: xs, [] => by simp [IntervalSet.mergeSorted]
  | x :: xs, y :: ys => by
    rw [IntervalSet.mergeSorted]
    split
    · exact (mergeSorted_perm xs (y :: ys)).cons x
    · exact ((mergeSorted_perm (x :: xs) ys).cons y).trans
        List.perm_middle.symm

/-- C4: `union` is commutative in membership, and the length of a union
is always the sum of the lengths — multiset semantics with no
de-duplication, even for distinct interval objects with identical
bounds. -/
theorem union_comm_mem_length (A B : IntervalSet) :
    (∀ J : Interval,
      J ∈ (A.union B).intervals ↔ J ∈ (B.union A).intervals) ∧
      (A.union B).length = A.length + B.length := by
  constructor
  · intro J
    simp only [IntervalSet.union]
    rw [(mergeSorted_perm A.intervals B.intervals).mem_iff,
      (mergeSorted_perm B.intervals A.intervals).mem_iff]
    simp only [List.mem_append]
    tauto
  · simpa [IntervalSet.length, IntervalSet.union] using
      (mergeSorted_perm A.intervals B.intervals).length_eq

/-- Stable sorted insertion is, up to permutation, a cons. -/
theorem insertSorted_perm (i : Interval) (l : List Interval) :
    (IntervalSet.insertSorted i l).Perm (i :: l) := by
  induction l with
  | nil => simp [IntervalSet.insertSorted]
  | cons j rest ih =>
    by_cases hc : j.bounds.t1 ≤ i.bounds.t1
    · rw [IntervalSet.insertSorted, if_pos hc]
      exact (ih.cons j).trans (List.Perm.swap i j rest)
    · rw [IntervalSet.insertSorted, if_neg hc]

/-- Removing a member whose identity is unambiguous in the set and
consing it back is a permutation identity. -/
theorem perm_cons_removeFirst (I : Interval) (l : List Interval)
    (h : I ∈ l) (hid : ∀ J ∈ l, J.id = I.id → J = I) :
    l.Perm (I :: IntervalSet.removeFirst I l) := by
  induction l with
  | nil => simp at h
  | cons j rest ih =>
    by_cases hc : j.id = I.id
    · have hj : j = I := hid j (List.mem_cons_self j rest) hc
      rw [IntervalSet.removeFirst, if_pos hc, hj]
    · have hIr : I ∈ rest := by
        rcases List.mem_cons.mp h with rfl | hr
        · exact absurd rfl hc
        · exact hr
      have hid' : ∀ J ∈ rest, J.id = I.id → J = I := fun J hJ =>
        hid J (List.mem_cons_of_mem j hJ)
      rw [IntervalSet.removeFirst, if_neg hc]
      exact ((ih hIr hid').cons j).trans (List.Perm.swap I j _)

/-- C5: removing a member interval object and immediately re-adding it
restores the set's original length and membership — the cycle-out /
cycle-in change-notification idiom loses no entry and duplicates none
(the resulting sequence is a permutation of the original). -/
theorem remove_add_restores (S : IntervalSet) (I : Interval)
    (h : I ∈ S.intervals)
    (hid : ∀ J ∈ S.intervals, J.id = I.id → J = I) :
    ((S.remove I).add I).length = S.length ∧
      (∀ J : Interval,
        J ∈ ((S.remove I).add I).intervals ↔ J ∈ S.intervals) ∧
      (((S.remove I).add I).intervals).Perm S.intervals := by
  have hp : (((S.remove I).add I).intervals).Perm S.intervals :=
    (insertSorted_perm I (IntervalSet.removeFirst I S.intervals)).trans
      (perm_cons_removeFirst I S.intervals h hid).symm
  exact ⟨hp.length_eq, fun J => hp.mem_iff, hp⟩

/-- Witness for C5 on a concrete two-element set: cycling the first
interval out and back in restores length, membership and the multiset. -/
theorem remove_add_restores_witness :
    ((capSet.remove capInterval).add capInterval).length = capSet.length ∧
      (capInterval ∈ ((capSet.remove capInterval).add capInterval).intervals ↔
        capInterval ∈ capSet.intervals) ∧
      (((capSet.remove capInterval).add capInterval).intervals).Perm
        capSet.intervals :=
  have h := remove_add_restores capSet capInterval (by simp [capSet])
    (by intro J hJ _; simpa [capSet] using hJ)
  ⟨h.1, h.2.1 capInterval, h.2.2⟩

/-- Unfolding of the row renderer: an interval yields a rectangle exactly
when it passes the window test, so the drawn intervals are a filter. -/
theorem drawnIntervals_eq_filter (l : List Interval) (w : TimelineBounds)
    (fw rh : ℚ) :
    drawnIntervals l w fw rh =
      l.filter (fun i => decide (i.bounds.t2 > w.start ∧ i.bounds.t1 < w.stop)) := by
  induction l with
  | nil => rfl
  | cons a l ih =>
    by_cases hc : a.bounds.t2 > w.start ∧ a.bounds.t1 < w.stop
    · simpa [drawnIntervals, render_canvas, List.filterMap_cons, hc]
        using ih
    · simpa [drawnIntervals, render_canvas, List.filterMap_cons, hc]
        using ih

/-- C1 counterexample: on the in-progress interval `[1, 5]`, advancing
`t2` to time `3` — a value not later than the current `t2` — is not a
no-op: the update fires and `t2` moves backward from `5` to `3`, so the
interval shrinks. -/
theorem advance_t2_shrinks_counterexample :
    advance_t2 ⟨1, 5⟩ 3 = ⟨1, 3⟩ ∧ (3 : ℚ) ≤ 5 ∧
      (advance_t2 ⟨1, 5⟩ 3).t2 < (Bounds.mk 1 5).t2 := by
  refine ⟨?_, by norm_num, ?_⟩
  · norm_num [advance_t2]
  · norm_num [advance_t2]

/-- C1 (amended): advancing the end of an in-progress interval to a value
not later than `t1`, or equal to the current `t2`, is a no-op and never
fails; but a value strictly between `t1` and the current `t2` does move
`t2` backward (see the counterexample), so only those two cases are
no-ops. -/
theorem advance_t2_noop (b : Bounds) (time : ℚ)
    (h : time ≤ b.t1 ∨ time = b.t2) : advance_t2 b time = b := by
  rcases h with h | h
  · simp [advance_t2, not_lt.mpr h]
  · simp [advance_t2, h]

/-- Witness for C1 (amended) at the concrete bounds `[1, 5]`, advancing
to time `1` (not later than `t1`). -/
theorem advance_t2_noop_witness :
    advance_t2 ⟨1, 5⟩ 1 = ⟨1, 5⟩ :=
  advance_t2_noop ⟨1, 5⟩ 1 (Or.inl (by norm_num))

/-- C6: the timeline row draws an interval exactly when the half-open /
exclusive range-window predicate `interval.t2 > window.start &&
interval.t1 < window.end` holds — this predicate decides whether
`TimelineRow.render_canvas` emits a rectangle for the interval. -/
theorem render_canvas_draws_iff (intervals : List Interval)
    (window : TimelineBounds) (fw rh : ℚ) (I : Interval) :
    I ∈ drawnIntervals intervals window fw rh ↔
      I ∈ intervals ∧
        (I.bounds.t2 > window.start ∧ I.bounds.t1 < window.stop) := by
  rw [drawnIntervals_eq_filter]
  simp [List.mem_filter]

/-- C7: the checked `Bounds` constructor either returns exactly the two
finite, non-negative, ordered endpoints it was given — never clamped —
or fails fast with `InvalidRange`; and decoding the interval record
`{"bounds":{"t1":3,"t2":1}}` fails with `InvalidRange`. -/
theorem bounds_invalid_range :
    (∀ n1 n2 : VNum,
      (∃ b : Bounds, Bounds.mk? n1 n2 = Except.ok b ∧
        n1 = VNum.fin b.t1 ∧ n2 = VNum.fin b.t2 ∧
        0 ≤ b.t1 ∧ 0 ≤ b.t2 ∧ b.t1 ≤ b.t2) ∨
      Bounds.mk? n1 n2 = Except.error VError.invalidRange) ∧
    decodeInterval vdata_from_json 0
      (Json.obj [("bounds", Json.obj
        [("t1", Json.num (VNum.fin 3)), ("t2", Json.num (VNum.fin 1))])]) =
      Except.error VError.invalidRange := by
  constructor
  · intro n1 n2
    cases n1 with
    | fin q1 =>
      cases n2 with
      | fin q2 =>
        by_cases hv : 0 ≤ q1 ∧ 0 ≤ q2 ∧ q1 ≤ q2
        · left
          exact ⟨⟨q1, q2⟩, by rw [Bounds.mk?, if_pos hv], rfl, rfl,
            hv.1, hv.2.1, hv.2.2⟩
        · right
          rw [Bounds.mk?, if_neg hv]
      | nan => right; rfl
      | posInf => right; rfl
      | negInf => right; rfl
    | nan => right; cases n2 <;> rfl
    | posInf => right; cases n2 <;> rfl
    | negInf => right; cases n2 <;> rfl
  · rfl

/-- Decoding an `interval_sets` entry copies the raw `name` field
verbatim into the result. -/
theorem decodeNamedSet_name (j : Json) (s : NamedIntervalSet)
    (h : decodeNamedSet j = Except.ok s) :
    channelNameOfSetJson j = some s.name := by
  unfold decodeNamedSet at h
  split at h
  · rename_i name isJ hn his
    split at h
    · rename_i is hds
      unfold channelNameOfSetJson
      rw [hn]
      cases h
      rfl
    · exact absurd h (by simp)
  · exact absurd h (by simp)

/-- Decoding a list of `interval_sets` entries preserves the sequence of
raw names verbatim. -/
theorem decodeNamedSets_names (js : List Json)
    (ss : List NamedIntervalSet) (h : decodeNamedSets js = Except.ok ss) :
    js.mapM channelNameOfSetJson = some (ss.map NamedIntervalSet.name) := by
  induction js generalizing ss with
  | nil =>
    cases h
    rfl
  | cons j rest ih =>
    unfold decodeNamedSets at h
    split at h
    · exact absurd h (by simp)
    · rename_i s1 hs1
      split at h
      · exact absurd h (by simp)
      · rename_i ss1 hss1
        cases h
        rw [List.mapM_cons, decodeNamedSet_name j s1 hs1, ih ss1 hss1]
        rfl

/-- Decoding one block preserves its channel names verbatim. -/
theorem decodeBlock_names (j : Json) (b : IntervalBlock)
    (h : decodeBlock j = Except.ok b) :
    channelNamesOfBlockJson j =
      some (b.interval_sets.map NamedIntervalSet.name) := by
  unfold decodeBlock at h
  split at h
  · rename_i vid sets hvid hsets
    split at h
    · rename_i ss hss
      unfold channelNamesOfBlockJson
      rw [hsets]
      cases h
      exact decodeNamedSets_names sets ss hss
    · exact absurd h (by simp)
  · exact absurd h (by simp)

/-- Decoding a list of blocks preserves all channel names verbatim. -/
theorem decodeBlocks_names (js : List Json) (bs : List IntervalBlock)
    (h : decodeBlocks js = Except.ok bs) :
    js.mapM channelNamesOfBlockJson =
      some (bs.map (fun b => b.interval_sets.map NamedIntervalSet.name)) := by
  induction js generalizing bs with
  | nil =>
    cases h
    rfl
  | cons j rest ih =>
    unfold decodeBlocks at h
    split at h
    · exact absurd h (by simp)
    · rename_i b1 hb1
      split at h
      · exact absurd h (by simp)
      · rename_i bs1 hbs1
        cases h
        rw [List.mapM_cons, decodeBlock_names j b1 hb1, ih bs1 hbs1]
        rfl

/-- The rendering-layer predicate in terms of the name's first
character. -/
theorem show_in_timeline_iff (k : String) :
    show_in_timeline k = true ↔ k.data.head? ≠ some '_' := by
  unfold show_in_timeline
  cases k.data with
  | nil => simp
  | cons c rest => simp [bne_iff_ne]

/-- C8: decoding blocks from JSON preserves every channel name verbatim
(the core performs no underscore filtering), and the rendering layer
(`VBlock.render`) includes a named set in the timeline track exactly
when its name does not begin with `'_'`. -/
theorem names_preserved_and_timeline_filter (j : Json)
    (blocks : List IntervalBlock)
    (h : interval_blocks_from_json j = Except.ok blocks) :
    channelNamesOfJson j =
      some (blocks.map (fun b => b.interval_sets.map NamedIntervalSet.name)) ∧
    ∀ b ∈ blocks, ∀ s : NamedIntervalSet,
      s ∈ timelineTrackSets b ↔
        s ∈ b.interval_sets ∧ s.name.data.head? ≠ some '_' := by
  constructor
  · unfold interval_blocks_from_json at h
    cases j with
    | arr bjs =>
      unfold channelNamesOfJson
      exact decodeBlocks_names bjs blocks h
    | num n => exact absurd h (by simp)
    | str s => exact absurd h (by simp)
    | bool b => exact absurd h (by simp)
    | null => exact absurd h (by simp)
    | obj fields => exact absurd h (by simp)
  · intro b _ s
    unfold timelineTrackSets
    rw [List.mem_filter, show_in_timeline_iff]

/-- A concrete raw payload: one block with a hidden channel `_hidden`
and a caption channel `caps` holding one interval. -/
def exampleBlocksJson : Json :=
  Json.arr [Json.obj [
    ("video_id", Json.num (VNum.fin 7)),
    ("interval_sets", Json.arr [
      Json.obj [("name", Json.str "_hidden"),
                ("interval_set", Json.arr [])],
      Json.obj [("name", Json.str "caps"),
                ("interval_set", Json.arr [
        Json.obj [
          ("bounds", Json.obj [("t1", Json.num (VNum.fin 2)),
                               ("t2", Json.num (VNum.fin 5))]),
          ("data", Json.obj [
            ("spatial_type", Json.obj [("type", Json.str "caption")]),
            ("metadata", Json.obj [])])]])]])]]

/-- The decode of `exampleBlocksJson`. -/
def exampleBlock0 : IntervalBlock :=
  ⟨[⟨"_hidden", ⟨[]⟩⟩,
    ⟨"caps", ⟨[⟨0, ⟨2, 5⟩, ⟨SpatialType.caption, []⟩⟩]⟩⟩], 7⟩

/-- Witness for C8 on the concrete payload: the raw names come through
verbatim, and the `_hidden` channel — whose name begins with `'_'` — is
excluded from the timeline track. -/
theorem names_preserved_witness :
    channelNamesOfJson exampleBlocksJson =
      some ([exampleBlock0].map
        (fun b => b.interval_sets.map NamedIntervalSet.name)) ∧
    ((⟨"_hidden", ⟨[]⟩⟩ : NamedIntervalSet) ∈ timelineTrackSets exampleBlock0 ↔
      (⟨"_hidden", ⟨[]⟩⟩ : NamedIntervalSet) ∈ exampleBlock0.interval_sets ∧
        ("_hidden" : String).data.head? ≠ some '_') :=
  have h := names_preserved_and_timeline_filter exampleBlocksJson
    [exampleBlock0] (by rfl)
  ⟨h.1, h.2 exampleBlock0 (by simp) ⟨"_hidden", ⟨[]⟩⟩⟩

/-- The `first_time` reduction never faults: its dereference is guarded
by `length() > 0`, under which a representative exists. -/
theorem foldFirstTime_isSome (l : List NamedIntervalSet) (n : Option ℚ) :
    (foldFirstTime l n).isSome = true := by
  induction l generalizing n with
  | nil => rfl
  | cons s rest ih =>
    rw [foldFirstTime]
    by_cases hl : s.interval_set.length > 0
    · rw [if_pos hl]
      cases hI : s.interval_set.arbitrary_interval with
      | none =>
        exfalso
        have : s.interval_set.intervals = [] :=
          List.head?_eq_none_iff.mp hI
        simp [IntervalSet.length, this] at hl
      | some i => exact ih _
    · rw [if_neg hl]
      exact ih n

/-- The captions scan never faults, for the same reason. -/
theorem findCaptions_isSome (l : List NamedIntervalSet)
    (acc : Option IntervalSet) : (findCaptions l acc).isSome = true := by
  induction l generalizing acc with
  | nil => rfl
  | cons s rest ih =>
    rw [findCaptions]
    by_cases hl : s.interval_set.length > 0
    · rw [if_pos hl]
      cases hI : s.interval_set.arbitrary_interval with
      | none =>
        exfalso
        have : s.interval_set.intervals = [] :=
          List.head?_eq_none_iff.mp hI
        simp [IntervalSet.length, this] at hl
      | some i =>
        exact ih
          (if isCaption i.data.spatial_type then some s.interval_set else acc)
    · rw [if_neg hl]
      exact ih acc

/-- With a non-null example interval the `show_timeline` filter never
faults. -/
theorem showTimelineFilter_isSome (ex : Interval) (l : List Interval) :
    (showTimelineFilter (some ex) l).isSome = true := by
  induction l with
  | nil => rfl
  | cons intvl rest ih =>
    rw [showTimelineFilter]
    cases hk : showTimelineFilter (some ex) rest with
    | none => rw [hk] at ih; exact absurd ih (by simp)
    | some kept =>
      by_cases hc : intvl.bounds.t1 ≠ ex.bounds.t1 ∧
          intvl.bounds.t2 ≠ ex.bounds.t2
      · simp [hc]
      · simp [hc]

/-- C9 counterexample: a block whose `interval_sets` list is non-empty
but whose first interval set is empty.  The claim says the constructor's
dereference has no value to return there; in fact the constructor
returns a value (`show_timeline = false`, no captions, `first_time`
still at `Infinity`), because the null example interval is only
dereferenced inside the filter over the (empty) first set. -/
theorem vblock_constructor_empty_first_set :
    vblock_constructor [⟨"a", ⟨[]⟩⟩] = some ⟨none, none, false⟩ := rfl

/-- C9 (amended): the `VBlock` constructor is total exactly when the
block's `interval_sets` list is non-empty — the `interval_sets[0]`
dereference faults on an empty list, but an empty first interval set is
harmless: the unchecked `arbitrary_interval()!` example is dereferenced
only inside the `show_timeline` filter, which iterates the first set's
own (then empty) interval list. -/
theorem vblock_constructor_total_iff (sets : List NamedIntervalSet) :
    (vblock_constructor sets).isSome = !sets.isEmpty := by
  obtain ⟨ft, hft⟩ := Option.isSome_iff_exists.mp
    (foldFirstTime_isSome (sets.filter fun s => show_in_timeline s.name) none)
  obtain ⟨cap, hcap⟩ := Option.isSome_iff_exists.mp
    (findCaptions_isSome sets none)
  cases sets with
  | nil => rfl
  | cons s0 rest =>
    simp only [vblock_constructor, hft, hcap, List.isEmpty_cons,
      Bool.not_false]
    by_cases h1 : (s0 :: rest).length = 1
    · rw [if_pos h1]
      cases hE : s0.interval_set.arbitrary_interval with
      | none =>
        have hnil : s0.interval_set.to_list = [] :=
          List.head?_eq_none_iff.mp hE
        rw [hnil]
        rfl
      | some ex =>
        obtain ⟨kept, hk⟩ := Option.isSome_iff_exists.mp
          (showTimelineFilter_isSome ex s0.interval_set.to_list)
        rw [hk]
        rfl
    · rw [if_neg h1]
      rfl

/-- The disjointness invariant of the `Groups` selection state. -/
def disjSI (st : GroupsState) : Prop :=
  ∀ i : ℕ, i ∈ st.selected → i ∉ st.ignored

/-- Erasing an index from both sets preserves disjointness. -/
theorem disjSI_erase_erase (s : GroupsState) (i : ℕ) (hs : disjSI s) :
    disjSI ⟨s.selected.erase i, s.ignored.erase i⟩ := by
  intro j hj hcon
  exact hs j (Finset.mem_of_mem_erase hj) (Finset.mem_of_mem_erase hcon)

/-- Inserting into `selected` while erasing from `ignored` preserves
disjointness. -/
theorem disjSI_insert_sel (s : GroupsState) (i : ℕ) (hs : disjSI s) :
    disjSI ⟨insert i s.selected, s.ignored.erase i⟩ := by
  intro j hj hcon
  rcases Finset.mem_insert.mp hj with rfl | hj'
  · exact absurd hcon (Finset.not_mem_erase j s.ignored)
  · exact hs j hj' (Finset.mem_of_mem_erase hcon)

/-- Inserting into `ignored` while erasing from `selected` preserves
disjointness. -/
theorem disjSI_insert_ign (s : GroupsState) (i : ℕ) (hs : disjSI s) :
    disjSI ⟨s.selected.erase i, insert i s.ignored⟩ := by
  intro j hj hcon
  rcases Finset.mem_insert.mp hcon with rfl | hcon'
  · exact absurd hj (Finset.not_mem_erase j s.selected)
  · exact hs j (Finset.mem_of_mem_erase hj) hcon'

/-- A fold of disjointness-preserving steps preserves disjointness. -/
theorem foldl_disjSI {α : Type} {f : GroupsState → α → GroupsState}
    (hf : ∀ st a, disjSI st → disjSI (f st a)) :
    ∀ (l : List α) (st : GroupsState), disjSI st →
      disjSI (List.foldl f st l)
  | [], _, h => h
  | a :: rest, st, h => foldl_disjSI hf rest (f st a) (hf st a h)

/-- Every `Groups` selection/ignore operation preserves disjointness. -/
theorem disjSI_applyGroupsOp (st : GroupsState) (op : GroupsOp)
    (h : disjSI st) : disjSI (applyGroupsOp st op) := by
  cases op with
  | select e =>
    show disjSI (onSelectIndividual st e)
    unfold onSelectIndividual
    by_cases he : e ∈ st.selected
    · rw [if_pos he]
      intro j hj
      exact h j (Finset.mem_of_mem_erase hj)
    · rw [if_neg he]
      exact disjSI_insert_sel st e h
  | ignore e =>
    show disjSI (onIgnore st e)
    unfold onIgnore
    by_cases he : e ∈ st.ignored
    · rw [if_pos he]
      intro j hj hcon
      exact h j hj (Finset.mem_of_mem_erase hcon)
    · rw [if_neg he]
      exact disjSI_insert_ign st e h
  | selectPage page rpp len =>
    show disjSI (onSelectPage st page rpp len)
    unfold onSelectPage
    apply foldl_disjSI _ _ st h
    intro s i hs
    by_cases hall : (pageIndices page rpp len).all
        (fun i => decide (i ∈ st.selected)) = true
    · rw [if_pos hall]
      exact disjSI_erase_erase s i hs
    · rw [if_neg hall]
      exact disjSI_insert_sel s i hs
  | ignorePage page rpp len =>
    show disjSI (onIgnorePage st page rpp len)
    unfold onIgnorePage
    apply foldl_disjSI _ _ st h
    intro s i hs
    by_cases hall : (pageIndices page rpp len).all
        (fun i => decide (i ∈ st.ignored)) = true
    · rw [if_pos hall]
      exact disjSI_erase_erase s i hs
    · rw [if_neg hall]
      exact disjSI_insert_ign s i hs

/-- C10: after any sequence of `Groups` selection/ignore operations
(`_onSelect` in individual mode, `_onIgnore`, `_onSelectPage`,
`_onIgnorePage`) from the initial state, the selected and ignored index
sets are disjoint — no index is a member of both. -/
theorem groups_selected_ignored_disjoint (ops : List GroupsOp) :
    (applyGroupsOps groupsInit ops).selected ∩
      (applyGroupsOps groupsInit ops).ignored = ∅ := by
  have h : disjSI (applyGroupsOps groupsInit ops) := by
    apply foldl_disjSI disjSI_applyGroupsOp ops groupsInit
    intro i hi
    exact absurd hi (Finset.not_mem_empty i)
  apply Finset.eq_empty_iff_forall_not_mem.mpr
  intro i hi
  exact h i (Finset.mem_inter.mp hi).1 (Finset.mem_inter.mp hi).2

end Vgrid
